import Mathlib

/-
  Verification development for the peregrine file indexer and search engine.

  The Python sources (indexer.py, search.py) are shallowly embedded below:
  Python dicts become association lists (preserving insertion-order
  semantics), Python sets become Finsets, fallible operations return
  Except/Option (a Python exception is an explicit error value), and the
  filesystem-facing inputs of Indexer.index_file (stat result, file bytes,
  extractor output) are passed in as an explicit FileView record.
-/

set_option maxRecDepth 8000

namespace Peregrine

/-- Decidable equality of Except values, needed to evaluate the embedded
search functions on concrete inputs. -/
instance instDecEqExcept [DecidableEq ε] [DecidableEq α] : DecidableEq (Except ε α) := fun a b =>
  match a, b with
  | .error x, .error y =>
    if h : x = y then .isTrue (congrArg Except.error h)
    else .isFalse (fun hh => h (Except.error.inj hh))
  | .ok x, .ok y =>
    if h : x = y then .isTrue (congrArg Except.ok h)
    else .isFalse (fun hh => h (Except.ok.inj hh))
  | .error _, .ok _ => .isFalse (fun hh => Except.noConfusion hh)
  | .ok _, .error _ => .isFalse (fun hh => Except.noConfusion hh)

/-- Python exception kinds that the embedded code can raise. -/
inductive PyError where
  | keyError
  | typeError
  | valueError
  | attrError
deriving DecidableEq

/-- Lookup in a Python dict modelled as an association list
(first matching key wins; our operations keep keys unique). -/
def dictGet [DecidableEq α] (d : List (α × β)) (k : α) : Option β :=
  match d with
  | [] => none
  | p :: rest => if p.1 = k then some p.2 else dictGet rest k

/-- Assignment d[k] = v on a Python dict: replaces the value in place if the
key exists (keeping its position), otherwise appends the new entry at the
end, matching Python insertion-order semantics. -/
def dictSet [DecidableEq α] (d : List (α × β)) (k : α) (v : β) : List (α × β) :=
  match d with
  | [] => [(k, v)]
  | p :: rest => if p.1 = k then (k, v) :: rest else p :: dictSet rest k v

theorem dictGet_dictSet_self [DecidableEq α] (d : List (α × β)) (k : α) (v : β) :
    dictGet (dictSet d k v) k = some v := by
  induction d with
  | nil => simp [dictGet, dictSet]
  | cons p rest ih =>
    by_cases h : p.1 = k
    · simp [dictGet, dictSet, h]
    · simp [dictGet, dictSet, h, ih]

theorem dictGet_dictSet_ne [DecidableEq α] (d : List (α × β)) (k k' : α) (v : β)
    (h : k ≠ k') : dictGet (dictSet d k v) k' = dictGet d k' := by
  induction d with
  | nil => simp [dictGet, dictSet, h]
  | cons p rest ih =>
    by_cases hp : p.1 = k
    · simp [dictGet, dictSet, hp, h]
    · simp [dictGet, dictSet, hp, ih]

theorem dictGet_mem [DecidableEq α] (d : List (α × β)) (k : α) (v : β)
    (h : dictGet d k = some v) : (k, v) ∈ d := by
  induction d with
  | nil => simp [dictGet] at h
  | cons p rest ih =>
    obtain ⟨p1, p2⟩ := p
    by_cases hp : p1 = k
    · subst hp
      simp [dictGet] at h
      subst h
      exact List.mem_cons_self _ _
    · simp [dictGet, hp] at h
      exact List.mem_cons_of_mem _ (ih h)

/-- Digit accumulator for the model of the Python int() builtin. -/
def digits_go (acc : Nat) : List Char → Option Nat
  | [] => some acc
  | c :: cs => if c.isDigit then digits_go (acc * 10 + (c.toNat - ('0').toNat)) cs else none

/-- Digits of a nonempty digit string. -/
def digits_nat (l : List Char) : Option Nat :=
  if l.isEmpty then none else digits_go 0 l

/-- Models the Python int() builtin on the digit slices used by the source:
an optional minus sign followed by a nonempty run of decimal digits; any
other input raises ValueError (modelled as none). -/
def py_int (s : String) : Option Int :=
  let l := s.toList
  match l with
  | [] => none
  | c :: rest =>
    if c = ('-') then (digits_nat rest).map (fun n => -(n : Int))
    else (digits_nat l).map (fun n => (n : Int))

/-- Models the Python str.strip() method (remove leading and trailing
whitespace). -/
def py_strip (s : String) : String :=
  String.mk (((s.toList.dropWhile Char.isWhitespace).reverse.dropWhile Char.isWhitespace).reverse)

/-- Models the Python str.lower() method on the ASCII operation names used
by the source. -/
def py_lower (s : String) : String :=
  String.mk (s.toList.map Char.toLower)

/-- Whitespace tokenizer behind the Python str.split() method
(split on runs of whitespace, dropping empty tokens). -/
def words_aux : List Char → List Char → List (List Char)
  | [], acc => if acc.isEmpty then [] else [acc.reverse]
  | c :: cs, acc =>
    if c.isWhitespace then
      (if acc.isEmpty then words_aux cs [] else acc.reverse :: words_aux cs [])
    else words_aux cs (c :: acc)

/-- Models the Python str.split() method with no arguments. -/
def py_split_ws (s : String) : List String :=
  (words_aux s.toList []).map String.mk

/-- Total lexicographic order on char lists, used to enumerate a Python
set deterministically (CPython iterates a set in an arbitrary but fixed
order; the embedding fixes ascending order). -/
def chars_le : List Char → List Char → Bool
  | [], _ => true
  | _ :: _, [] => false
  | a :: as, b :: bs =>
    if a.toNat < b.toNat then true
    else if b.toNat < a.toNat then false
    else chars_le as bs

theorem chars_le_total (a b : List Char) : chars_le a b = true ∨ chars_le b a = true := by
  induction a generalizing b with
  | nil => left; simp [chars_le]
  | cons x xs ih =>
    cases b with
    | nil => right; simp [chars_le]
    | cons y ys =>
      rcases Nat.lt_trichotomy x.toNat y.toNat with h | h | h
      · left; simp [chars_le, h]
      · rcases ih ys with h2 | h2
        · left; simp [chars_le, h, h2]
        · right; simp [chars_le, h.symm, h2]
      · right; simp [chars_le, h]

theorem char_toNat_inj (a b : Char) (h : a.toNat = b.toNat) : a = b :=
  Char.ext (UInt32.ext h)

theorem chars_le_antisymm (a b : List Char) (h1 : chars_le a b = true)
    (h2 : chars_le b a = true) : a = b := by
  induction a generalizing b with
  | nil =>
    cases b with
    | nil => rfl
    | cons y ys => simp [chars_le] at h2
  | cons x xs ih =>
    cases b with
    | nil => simp [chars_le] at h1
    | cons y ys =>
      rcases Nat.lt_trichotomy x.toNat y.toNat with h | h | h
      · simp [chars_le, h, Nat.lt_asymm h] at h2
      · have hx : x = y := char_toNat_inj x y h
        subst hx
        simp [chars_le] at h1 h2
        rw [ih ys h1 h2]
      · simp [chars_le, h, Nat.lt_asymm h] at h1

theorem chars_le_trans (a b c : List Char) (h1 : chars_le a b = true)
    (h2 : chars_le b c = true) : chars_le a c = true := by
  induction a generalizing b c with
  | nil => simp [chars_le]
  | cons x xs ih =>
    cases b with
    | nil => simp [chars_le] at h1
    | cons y ys =>
      cases c with
      | nil => simp [chars_le] at h2
      | cons z zs =>
        rcases Nat.lt_trichotomy x.toNat y.toNat with hxy | hxy | hxy
        · rcases Nat.lt_trichotomy y.toNat z.toNat with hyz | hyz | hyz
          · simp [chars_le, Nat.lt_trans hxy hyz]
          · simp [chars_le, hyz ▸ hxy]
          · simp [chars_le, hyz, Nat.lt_asymm hyz] at h2
        · rcases Nat.lt_trichotomy y.toNat z.toNat with hyz | hyz | hyz
          · simp [chars_le, hxy ▸ hyz]
          · have hxz : x.toNat = z.toNat := hxy.trans hyz
            simp [chars_le, hxy, Nat.lt_irrefl, hyz, hxz] at h1 h2 ⊢
            exact ih ys zs h1 h2
          · simp [chars_le, hyz, Nat.lt_asymm hyz] at h2
        · simp [chars_le, hxy, Nat.lt_asymm hxy] at h1

/-- Ordered insert used to enumerate a Python set deterministically. -/
def ins_by (le : α → α → Bool) (x : α) : List α → List α
  | [] => [x]
  | y :: ys => if le x y then x :: y :: ys else y :: ins_by le x ys

/-- Insertion sort by the Boolean order le. -/
def list_sort_by (le : α → α → Bool) : List α → List α
  | [] => []
  | x :: xs => ins_by le x (list_sort_by le xs)

theorem ins_by_perm (le : α → α → Bool) (x : α) (l : List α) :
    List.Perm (ins_by le x l) (x :: l) := by
  induction l with
  | nil => simp [ins_by]
  | cons y ys ih =>
    by_cases h : le x y = true
    · simp [ins_by, h]
    · simp only [ins_by, h, if_false]
      exact ((ih.cons y).trans (List.Perm.swap x y ys))

theorem list_sort_by_perm (le : α → α → Bool) (l : List α) : List.Perm (list_sort_by le l) l := by
  induction l with
  | nil => rfl
  | cons x xs ih => exact (ins_by_perm le x (list_sort_by le xs)).trans (ih.cons x)

theorem ins_by_comm (le : α → α → Bool)
    (htot : ∀ a b, le a b = true ∨ le b a = true)
    (hanti : ∀ a b, le a b = true → le b a = true → a = b)
    (htrans : ∀ a b c, le a b = true → le b c = true → le a c = true)
    (x y : α) (l : List α) : ins_by le x (ins_by le y l) = ins_by le y (ins_by le x l) := by
  induction l with
  | nil =>
    by_cases hxy : le x y = true
    · by_cases hyx : le y x = true
      · have hq := hanti x y hxy hyx
        subst hq
        rfl
      · simp [ins_by, hxy, hyx]
    · have hyx : le y x = true := (htot x y).resolve_left hxy
      simp [ins_by, hxy, hyx]
  | cons z zs ih =>
    by_cases hyz : le y z = true
    · by_cases hxz : le x z = true
      · by_cases hxy : le x y = true
        · by_cases hyx : le y x = true
          · have hq := hanti x y hxy hyx
            subst hq
            rfl
          · simp [ins_by, hyz, hxz, hxy, hyx]
        · have hyx : le y x = true := (htot x y).resolve_left hxy
          simp [ins_by, hyz, hxz, hxy, hyx]
      · by_cases hxy : le x y = true
        · exact absurd (htrans x y z hxy hyz) hxz
        · have hyx : le y x = true := (htot x y).resolve_left hxy
          simp [ins_by, hyz, hxz, hxy, hyx]
    · by_cases hxz : le x z = true
      · by_cases hyx : le y x = true
        · exact absurd (htrans y x z hyx hxz) hyz
        · simp [ins_by, hyz, hxz, hyx]
      · simp [ins_by, hyz, hxz]
        exact ih

theorem list_sort_by_perm_inv (le : α → α → Bool)
    (htot : ∀ a b, le a b = true ∨ le b a = true)
    (hanti : ∀ a b, le a b = true → le b a = true → a = b)
    (htrans : ∀ a b c, le a b = true → le b c = true → le a c = true)
    {l1 l2 : List α} (h : List.Perm l1 l2) : list_sort_by le l1 = list_sort_by le l2 := by
  induction h with
  | nil => rfl
  | cons x _ ih => simp [list_sort_by, ih]
  | swap x y l => exact ins_by_comm le htot hanti htrans y x (list_sort_by le l)
  | trans _ _ ih1 ih2 => exact ih1.trans ih2

/-- Sorted enumeration of a multiset. -/
def msort_by (le : α → α → Bool)
    (htot : ∀ a b, le a b = true ∨ le b a = true)
    (hanti : ∀ a b, le a b = true → le b a = true → a = b)
    (htrans : ∀ a b c, le a b = true → le b c = true → le a c = true)
    (s : Multiset α) : List α :=
  Quot.liftOn s (list_sort_by le)
    (fun _ _ h => list_sort_by_perm_inv le htot hanti htrans h)

theorem msort_by_coe (le : α → α → Bool) (h1 h2 h3) (s : Multiset α) :
    ((msort_by le h1 h2 h3 s : List α) : Multiset α) = s := by
  induction s using Quot.inductionOn with
  | h l => exact Quot.sound (list_sort_by_perm le l)

theorem mem_msort_by (le : α → α → Bool) (h1 h2 h3) (s : Multiset α) (a : α) :
    a ∈ msort_by le h1 h2 h3 s ↔ a ∈ s := by
  rw [← Multiset.mem_coe, msort_by_coe]

theorem msort_by_nodup (le : α → α → Bool) (h1 h2 h3) (s : Multiset α)
    (h : s.Nodup) : (msort_by le h1 h2 h3 s).Nodup := by
  rw [← Multiset.coe_nodup, msort_by_coe]
  exact h

/-- Boolean order on ids (Python ints). -/
def int_le (a b : Int) : Bool := decide (a ≤ b)

theorem int_le_total (a b : Int) : int_le a b = true ∨ int_le b a = true := by
  simp [int_le]
  omega

theorem int_le_antisymm (a b : Int) (h1 : int_le a b = true) (h2 : int_le b a = true) :
    a = b := by
  simp [int_le] at h1 h2
  omega

theorem int_le_trans (a b c : Int) (h1 : int_le a b = true) (h2 : int_le b c = true) :
    int_le a c = true := by
  simp [int_le] at h1 h2 ⊢
  omega

/-- Ascending enumeration of a set of ids: the deterministic rendering of
CPython's arbitrary set-iteration order (the spec leaves within-tier order
unspecified and recommends ascending id). -/
def sort_ids (s : Finset Int) : List Int :=
  msort_by int_le int_le_total int_le_antisymm int_le_trans s.val

theorem mem_sort_ids (s : Finset Int) (a : Int) : a ∈ sort_ids s ↔ a ∈ s :=
  mem_msort_by _ _ _ _ _ _

theorem sort_ids_nodup (s : Finset Int) : (sort_ids s).Nodup :=
  msort_by_nodup _ _ _ _ _ s.nodup

/-- Boolean order on strings (lexicographic on characters). -/
def str_le (a b : String) : Bool := chars_le a.toList b.toList

theorem str_le_total (a b : String) : str_le a b = true ∨ str_le b a = true :=
  chars_le_total a.toList b.toList

theorem str_le_antisymm (a b : String) (h1 : str_le a b = true)
    (h2 : str_le b a = true) : a = b := by
  cases a with
  | mk la =>
    cases b with
    | mk lb =>
      have : la = lb := chars_le_antisymm la lb h1 h2
      rw [this]

theorem str_le_trans (a b c : String) (h1 : str_le a b = true)
    (h2 : str_le b c = true) : str_le a c = true :=
  chars_le_trans a.toList b.toList c.toList h1 h2

/-- Ascending enumeration of a set of keyword strings: the deterministic
rendering of CPython's arbitrary set-iteration order. -/
def sort_keys (s : Finset String) : List String :=
  msort_by str_le str_le_total str_le_antisymm str_le_trans s.val

theorem mem_sort_keys (s : Finset String) (a : String) : a ∈ sort_keys s ↔ a ∈ s :=
  mem_msort_by _ _ _ _ _ _

theorem sort_keys_nodup (s : Finset String) : (sort_keys s).Nodup :=
  msort_by_nodup _ _ _ _ _ s.nodup

/-- Platform file identity: the fields of an os.stat result that the
source reads (st_dev, st_ino, st_mtime). -/
structure UMeta where
  dev : Nat
  ino : Nat
  mtime : Int
deriving DecidableEq

/-- Per-file record stored by the index (class Metadata in indexer.py).
u_meta is None on platforms without inode support. -/
structure Metadata where
  keywords : Finset String
  user_keywords : Finset String
  path : String
  u_meta : Option UMeta
deriving DecidableEq

/-- Allocator state (class State in indexer.py). free_slots models the
Python set of released ids; list head is the element set.pop returns. -/
structure AllocState where
  free_slots : List Int
  lastid : Int
deriving DecidableEq

/-- The index table (class IndexTable in indexer.py): file records keyed
by id plus the four derived indices, each dict modelled as an association
list. -/
structure IndexTable where
  state : AllocState
  files : List (Int × Metadata)
  name : List (String × Finset Int)
  keywords : List (String × Finset Int)
  path : List (String × Int)
  uid : List (UMeta × Int)
deriving DecidableEq

/-- Everything Indexer.index_file reads from the filesystem and the
extractor for one file: its basename as passed in, its path relative to
the peregrine home, its current stat identity, its raw bytes, and the
ranked phrases returned by the RAKE extractor (none when extraction
raises). -/
structure FileView where
  filename : String
  filepath : String
  curStat : UMeta
  bytes : List Nat
  phrases : Option (List String)
deriving DecidableEq

/-- Membership in the textchars table of Indexer.is_binary_file:
bytearray({7, 8, 9, 10, 12, 13, 27} | set(range(0x20, 0x100)) - {0x7F}). -/
def is_text_byte (b : Nat) : Bool :=
  decide (b = 7 ∨ b = 8 ∨ b = 9 ∨ b = 10 ∨ b = 12 ∨ b = 13 ∨ b = 27 ∨
    (32 ≤ b ∧ b ≤ 255 ∧ b ≠ 127))

/-- Indexer.is_binary_file: read up to 1024 bytes, delete every textchar
(translate(None, textchars)), classify binary when anything is left. -/
def is_binary_file (bytes : List Nat) : Bool :=
  (bytes.take 1024).any (fun b => !(is_text_byte b))

/-- The flattening set(" ".join(ranked_phrases).split()) applied to the
extractor output in Indexer.index_file. -/
def flatten_phrases (ps : List String) : Finset String :=
  ((words_aux (List.intercalate [' '] (ps.map String.toList)) []).map String.mk).toFinset

/-- The content-keyword computation of Indexer.index_file lines 153-159:
binary files and failed extractions yield the empty set. -/
def content_keywords (v : FileView) : Finset String :=
  if is_binary_file v.bytes then ∅
  else
    match v.phrases with
    | none => ∅
    | some ps => flatten_phrases ps

/-- State.get_nextid: increment lastid and return it. -/
def get_nextid (s : AllocState) : Int × AllocState :=
  (s.lastid + 1, { s with lastid := s.lastid + 1 })

/-- Id allocation for an untracked file (Indexer.index_file lines 162-169):
pop a free slot if any exists, else State.get_nextid. -/
def allocate_id (s : AllocState) : Int × AllocState :=
  match s.free_slots with
  | i :: rest => (i, { s with free_slots := rest })
  | [] => get_nextid s

/-- The two keyword-index delta loops of Indexer.index_file lines 177-184:
for keys in old minus new, create the entry if absent and discard the id;
for keys in new minus old, create the entry if absent and add the id.
The Python set iteration order is rendered as ascending key order. -/
def apply_keyword_delta (kw : List (String × Finset Int)) (idv : Int)
    (oldK newK : Finset String) : List (String × Finset Int) :=
  (sort_keys (newK \ oldK)).foldl
    (fun d k => dictSet d k (insert idv ((dictGet d k).getD ∅)))
    ((sort_keys (oldK \ newK)).foldl
      (fun d k => dictSet d k (((dictGet d k).getD ∅).erase idv)) kw)

/-- The shared tail of Indexer.index_file (lines 175-194): recompute the
record keyword set as content keywords plus stored user keywords, apply
the keyword-index delta, add the id under the basename, refresh the path
index, and write the uid entry keyed by the record's (possibly stale)
u_meta. The none results model unreachable Python crashes (a record
missing for a tracked id, or a record without a stat identity). -/
def index_update (T : IndexTable) (v : FileView) (idv : Int) (oldK : Finset String)
    (st2 : AllocState) (filesBase : List (Int × Metadata)) : Option IndexTable :=
  match dictGet filesBase idv with
  | none => none
  | some rec0 =>
    let kws := content_keywords v ∪ rec0.user_keywords
    let rec1 : Metadata := { rec0 with keywords := kws }
    match rec1.u_meta with
    | none => none
    | some stKey =>
      some
        { state := st2
          files := dictSet filesBase idv rec1
          name := dictSet T.name v.filename (insert idv ((dictGet T.name v.filename).getD ∅))
          keywords := apply_keyword_delta T.keywords idv oldK kws
          path := dictSet T.path v.filepath idv
          uid := dictSet T.uid stKey idv }

/-- Indexer.index_file. For a tracked path whose stored and current
st_ino and st_mtime agree, return with the table untouched (the fast
path). Otherwise re-extract keywords and run the shared update tail; an
untracked path first allocates an id and inserts a fresh record. The
none results model Python exceptions on malformed tables (missing record
for a tracked id, or comparing against a record whose u_meta is None). -/
def index_file (T : IndexTable) (v : FileView) : Option IndexTable :=
  match dictGet T.path v.filepath with
  | some idv =>
    match dictGet T.files idv with
    | none => none
    | some rec0 =>
      match rec0.u_meta with
      | none => none
      | some st =>
        if v.curStat.ino = st.ino ∧ v.curStat.mtime = st.mtime then some T
        else index_update T v idv rec0.keywords T.state T.files
  | none =>
    index_update T v (allocate_id T.state).1 ∅ (allocate_id T.state).2
      (dictSet T.files (allocate_id T.state).1
        { keywords := content_keywords v
          user_keywords := ∅
          path := v.filepath
          u_meta := some v.curStat })

/-- Matching pass helper of the Jaro algorithm: scan the remaining
characters of the second string (paired with their match flags, starting
at position j) for the first unmatched occurrence of c within the search
window around position i. -/
def jaro_find (c : Char) (i w : Nat) : List Char → List Bool → Nat → Option Nat
  | [], _, _ => none
  | _ :: _, [], _ => none
  | d :: ds, f :: fs, j =>
    if (i ≤ j + w) ∧ (j ≤ i + w) ∧ f = false ∧ d = c then some j
    else jaro_find c i w ds fs (j + 1)

/-- Matching pass of the Jaro algorithm: each character of the first
string, in order, claims the first unmatched equal character of s2 within
the window; returns the matched characters of the first string in order
together with the final match flags of s2. -/
def jaro_scan (w : Nat) (s2 : List Char) : List Char → Nat → List Bool → List Char × List Bool
  | [], _, flags => ([], flags)
  | c :: cs, i, flags =>
    match jaro_find c i w s2 flags 0 with
    | some j =>
      let res := jaro_scan w s2 cs (i + 1) (flags.set j true)
      (c :: res.1, res.2)
    | none => jaro_scan w s2 cs (i + 1) flags

/-- Models the jaro function of the python-Levenshtein collaborator
library (standard Jaro similarity). The value
(m/len1 + m/len2 + (m - t)/m) / 3, with t the transposition count in
halves, is rendered as one exact fraction over the common denominator
6 * len1 * len2 * m, because the claims only consume the value through
the 0.80 threshold comparison. -/
def jaro (s1 s2 : String) : ℚ :=
  let a := s1.toList
  let b := s2.toList
  let l1 := a.length
  let l2 := b.length
  if l1 = 0 ∧ l2 = 0 then 1
  else if l1 = 0 ∨ l2 = 0 then 0
  else
    let w := max l1 l2 / 2 - 1
    let res := jaro_scan w b a 0 (b.map (fun _ => false))
    let m1 := res.1
    let m2 := ((b.zip res.2).filter (fun p => p.2)).map (fun p => p.1)
    let m := m1.length
    if m = 0 then 0
    else
      let t2 := ((m1.zip m2).filter (fun p => p.1 != p.2)).length
      mkRat ((2 * m * m * l2 + 2 * m * m * l1 + (2 * m - t2) * l1 * l2 : Nat) : Int)
        (6 * l1 * l2 * m)

/-- Search.FUZZY_THRESHOLD = 0.80. -/
def fuzzy_threshold : ℚ := mkRat 4 5

/-- The fuzzy branch of Search.search_by_keyword: union the id sets of
every tracked keyword whose Jaro similarity to the query reaches the
threshold. -/
def fuzzy_kw_set (T : IndexTable) (keyword : String) : Finset Int :=
  T.keywords.foldl
    (fun acc p => if fuzzy_threshold ≤ jaro p.1 keyword then acc ∪ p.2 else acc) ∅

/-- Search.search_by_keyword: exact mode is a plain dict lookup (a
missing key raises KeyError, modelled as the error value); fuzzy mode
scans every tracked keyword and never raises. -/
def search_by_keyword (T : IndexTable) (keyword : String) (fuzzy : Bool) :
    Except PyError (Finset Int) :=
  if fuzzy = false then
    match dictGet T.keywords keyword with
    | none => .error .keyError
    | some s => .ok s
  else .ok (fuzzy_kw_set T keyword)

/-- Substring test on char lists behind the Python containment operator
(needle in hay). -/
def sub_list (n : List Char) : List Char → Bool
  | [] => n.isEmpty
  | c :: rest => n.isPrefixOf (c :: rest) || sub_list n rest

/-- Models the Python substring containment test (needle in hay). -/
def contains_sub (hay needle : String) : Bool := sub_list needle.toList hay.toList

/-- Search.search_by_name: exact mode is a plain dict lookup returning a
set (KeyError when the name is untracked); fuzzy mode accumulates Jaro
matches and substring matches over every tracked basename in one pass and
returns the Jaro matches followed by the substring-only matches as a
list. The Union[List, Set] return type of the source becomes a sum. -/
def search_by_name (T : IndexTable) (nm : String) (fuzzy : Bool) :
    Except PyError (Finset Int ⊕ List Int) :=
  if fuzzy = false then
    match dictGet T.name nm with
    | none => .error .keyError
    | some s => .ok (.inl s)
  else
    let acc := T.name.foldl
      (fun (pr : Finset Int × Finset Int) p =>
        (if fuzzy_threshold ≤ jaro p.1 nm then pr.1 ∪ p.2 else pr.1,
         if contains_sub p.1 nm then pr.2 ∪ p.2 else pr.2))
      (∅, ∅)
    .ok (.inr (sort_ids acc.1 ++ sort_ids (acc.2 \ acc.1)))

/-- Loop body of Search.search_by_time in the candidates-given case.
Each candidate id i is rebound to files[i].u_meta (KeyError if the id has
no record, AttributeError if the record has no stat); on a time match the
source executes files.update(self.index_table.uid[i]), which looks up the
owner id (KeyError if the identity is unindexed) and then calls
set.update with that plain int, raising TypeError. -/
def time_loop (T : IndexTable) (high low : Int) (op : String) :
    List Int → Except PyError (Finset Int)
  | [] => .ok ∅
  | i :: rest =>
    match dictGet T.files i with
    | none => .error .keyError
    | some m =>
      match m.u_meta with
      | none => .error .attrError
      | some st =>
        if op = ("before") then
          (if st.mtime ≤ high then
            (match dictGet T.uid st with
             | none => .error .keyError
             | some _ => .error .typeError)
          else time_loop T high low op rest)
        else if op = ("after") then
          (if low ≤ st.mtime then
            (match dictGet T.uid st with
             | none => .error .keyError
             | some _ => .error .typeError)
          else time_loop T high low op rest)
        else if op = ("on") then
          (if low ≤ st.mtime ∧ st.mtime ≤ high then
            (match dictGet T.uid st with
             | none => .error .keyError
             | some _ => .error .typeError)
          else time_loop T high low op rest)
        else .error .valueError

/-- Search.search_by_time. With candidates unset the source rebinds
search_files to the uid dict and then, inside the loop, evaluates
files[i] with i an identity key, so any nonempty table raises KeyError
immediately; an empty table returns the empty set because the loop body
never runs. With a candidate id set the loop runs time_loop over the ids
in ascending order (the deterministic rendering of Python set order). -/
def search_by_time (T : IndexTable) (high low : Int) (operation : String)
    (search_files : Option (Finset Int)) : Except PyError (Finset Int) :=
  let op := py_lower (py_strip operation)
  match search_files with
  | none => if T.uid.isEmpty then .ok ∅ else .error .keyError
  | some s => time_loop T high low op (sort_ids s)

/-- Gregorian leap-year rule (the rule the Python datetime module
implements). -/
def is_leap (y : Int) : Bool :=
  decide (y % 4 = 0 ∧ (y % 100 ≠ 0 ∨ y % 400 = 0))

/-- Number of days in a month of the proleptic Gregorian calendar (the
reference against which the last-day computation of the source is
checked, and the month-length rule of the Python datetime module). -/
def ref_days_in_month (y : Int) (m : Nat) : Nat :=
  if m = 2 then (if is_leap y then 29 else 28)
  else if m = 4 ∨ m = 6 ∨ m = 9 ∨ m = 11 then 30
  else 31

/-- A Python datetime.date value. -/
structure PyDate where
  year : Int
  month : Nat
  day : Nat
deriving DecidableEq

/-- Models subtracting one day from a Python date
(date - timedelta(days=1)), whose documented behaviour is the previous
day of the proleptic Gregorian calendar. -/
def date_pred (d : PyDate) : PyDate :=
  if 1 < d.day then { d with day := d.day - 1 }
  else if 1 < d.month then
    { year := d.year, month := d.month - 1, day := ref_days_in_month d.year (d.month - 1) }
  else { year := d.year - 1, month := 12, day := 31 }

/-- Search._get_last_day_of_month: next_month = (month + 1) % 12 or 12
(Python truthiness), next_year = year unless month == 12, then
date(next_year, next_month, 1) - timedelta(days=1) and take the day.
The none result models the ValueError datetime.date raises when the year
falls outside [MINYEAR, MAXYEAR] = [1, 9999]. -/
def get_last_day_of_month (y mo : Int) : Option Nat :=
  let nm : Int := if (mo + 1) % 12 = 0 then 12 else (mo + 1) % 12
  let ny : Int := if mo ≠ 12 then y else y + 1
  if 1 ≤ ny ∧ ny ≤ 9999 then some ((date_pred (PyDate.mk ny nm.toNat 1)).day) else none

/-- Day count since 1970-01-01 of a proleptic Gregorian date with year at
least 1 (standard days-from-civil computation). -/
def days_from_civil (y m d : Nat) : Int :=
  let y2 := if m ≤ 2 then y - 1 else y
  let era := y2 / 400
  let yoe := y2 % 400
  let mp := (m + 9) % 12
  let doy := (153 * mp + 2) / 5 + d - 1
  let doe := yoe * 365 + yoe / 4 - yoe / 100 + doy
  ((era * 146097 + doe : Nat) : Int) - 719468

/-- Epoch seconds of a naive datetime under a fixed (UTC) offset: the
model of int(datetime(...).timestamp()). The source converts through the
local timezone; a fixed offset is used here because the claims only
speak about calendar components. -/
def to_epoch (y m d h mi s : Nat) : Int :=
  86400 * days_from_civil y m d + 3600 * (h : Int) + 60 * (mi : Int) + (s : Int)

/-- Models datetime.datetime(y, mo, d, h, mi, s) followed by
int(.timestamp()); none is the ValueError raised for out-of-range
components. -/
def mk_timestamp (y mo d h mi s : Int) : Option Int :=
  if 1 ≤ y ∧ y ≤ 9999 ∧ 1 ≤ mo ∧ mo ≤ 12 ∧ 1 ≤ d ∧
      d ≤ (ref_days_in_month y mo.toNat : Int) ∧
      0 ≤ h ∧ h ≤ 23 ∧ 0 ≤ mi ∧ mi ≤ 59 ∧ 0 ≤ s ∧ s ≤ 59 then
    some (to_epoch y.toNat mo.toNat d.toNat h.toNat mi.toNat s.toNat)
  else none

/-- Branching part of the date try-block of Search._get_epoch_limits
(lines 182-197), entered with hour = minutes = 0 still holding their
zero-initialized defaults. The environment returned is
(year, month, day, low, high); any datetime exception leaves low and
high unresolved. -/
def date_block3 (y : Int) (moO dO : Option Int) :
    Int × Option Int × Option Int × Option Int × Option Int :=
  match moO, dO with
  | some mo, some d =>
    (match mk_timestamp y mo d 23 59 59, mk_timestamp y mo d 0 0 0 with
     | some hi, some lo => (y, some mo, some d, some lo, some hi)
     | _, _ => (y, some mo, some d, none, none))
  | none, dd =>
    (match mk_timestamp y 12 31 0 59 59, mk_timestamp y 1 1 0 0 0 with
     | some hi, some lo => (y, none, dd, some lo, some hi)
     | _, _ => (y, none, dd, none, none))
  | some mo, none =>
    (match get_last_day_of_month y mo with
     | none => (y, some mo, none, none, none)
     | some ld =>
       match mk_timestamp y mo (ld : Int) 0 0 59, mk_timestamp y mo 1 0 0 0 with
       | some hi, some lo => (y, some mo, none, some lo, some hi)
       | _, _ => (y, some mo, none, none, none))

/-- Day-parsing step of the date try-block
(day = int(s[6:8]) if len(s) == 8 else None); a parse failure aborts the
block with the day variable still holding today's value. -/
def date_block2 (y : Int) (moO : Option Int) (td : Int) (s : String) :
    Int × Option Int × Option Int × Option Int × Option Int :=
  if s.length = 8 then
    match py_int ((s.drop 6).take 2) with
    | none => (y, moO, some td, none, none)
    | some d => date_block3 y moO (some d)
  else date_block3 y moO none

/-- The date try-block of Search._get_epoch_limits (ty, tm, td are
today's components, in scope before any assignment runs). -/
def date_block (ty tm td : Int) (s : String) :
    Int × Option Int × Option Int × Option Int × Option Int :=
  match py_int (s.take 4) with
  | none => (ty, some tm, some td, none, none)
  | some y =>
    if 5 ≤ s.length then
      match py_int ((s.drop 4).take 2) with
      | none => (y, some tm, some td, none, none)
      | some mo => date_block2 y (some mo) td s
    else date_block2 y none td s

/-- Models datetime.datetime(year, month, day, h, mi, s).timestamp() in
the time try-block, where month and day may hold None after a
length-4 date (TypeError, modelled as none). -/
def mk_timestamp_opt (y : Int) (moO dO : Option Int) (h mi s : Int) : Option Int :=
  match moO, dO with
  | some mo, some d => mk_timestamp y mo d h mi s
  | _, _ => none

/-- Branching part of the time try-block of Search._get_epoch_limits
(lines 206-225): a datetime exception leaves the low and high resolved by
the date block in place. -/
def time_block3 (y : Int) (moO dO : Option Int) (low0 high0 : Option Int)
    (h : Int) (miO sO : Option Int) : Option Int × Option Int :=
  match miO, sO with
  | some mi, some sec =>
    (match mk_timestamp_opt y moO dO h mi sec, mk_timestamp_opt y moO dO h mi sec with
     | some hi, some lo => (some lo, some hi)
     | _, _ => (low0, high0))
  | none, _ =>
    (match mk_timestamp_opt y moO dO h 59 59, mk_timestamp_opt y moO dO h 0 0 with
     | some hi, some lo => (some lo, some hi)
     | _, _ => (low0, high0))
  | some mi, none =>
    (match mk_timestamp_opt y moO dO h mi 59, mk_timestamp_opt y moO dO h mi 0 with
     | some hi, some lo => (some lo, some hi)
     | _, _ => (low0, high0))

/-- The time try-block of Search._get_epoch_limits: parse hour, minutes
and second slices (a parse failure aborts, keeping the date-block
window), then branch. -/
def time_block (y : Int) (moO dO : Option Int) (low0 high0 : Option Int) (ts : String) :
    Option Int × Option Int :=
  match py_int (ts.take 2) with
  | none => (low0, high0)
  | some h =>
    if 4 ≤ ts.length then
      match py_int ((ts.drop 2).take 2) with
      | none => (low0, high0)
      | some mi =>
        if ts.length = 6 then
          match py_int ((ts.drop 4).take 2) with
          | none => (low0, high0)
          | some sec => time_block3 y moO dO low0 high0 h (some mi) (some sec)
        else time_block3 y moO dO low0 high0 h (some mi) none
    else time_block3 y moO dO low0 high0 h none none

/-- Search._get_epoch_limits. The implicit call to datetime.date.today()
becomes the today triple (year, month, day). Returns (low, high). -/
def epoch_limits (today : Int × Int × Int) (dateStr timeStr : Option String) :
    Option Int × Option Int :=
  let e1 :=
    match dateStr with
    | none => (today.1, some today.2.1, some today.2.2, (none : Option Int), (none : Option Int))
    | some s => date_block today.1 today.2.1 today.2.2 s
  match timeStr with
  | none => (e1.2.2.2.1, e1.2.2.2.2)
  | some ts => time_block e1.1 e1.2.1 e1.2.2.1 e1.2.2.2.1 e1.2.2.2.2 ts

/-- Models set.intersection(*sets) on the tuple of per-keyword result
sets; with an empty query list the Python call has no arguments and
raises TypeError. -/
def inter_list : List (Finset Int) → Except PyError (Finset Int)
  | [] => .error .typeError
  | s :: rest => .ok (rest.foldl (fun a b => a ∩ b) s)

/-- Models set.union(*sets); TypeError on an empty tuple. -/
def union_list : List (Finset Int) → Except PyError (Finset Int)
  | [] => .error .typeError
  | s :: rest => .ok (rest.foldl (fun a b => a ∪ b) s)

/-- Strictly-shorter test for the stable sort keywords.sort(key=len). -/
def len_lt (a b : String) : Bool := decide (a.length < b.length)

/-- Stable sort of the query keywords by length (keywords.sort(key=len);
stability makes this insertion sort agree with Python's stable sort). -/
def sort_by_len (l : List String) : List String := list_sort_by len_lt l

/-- The loop appending search_by_keyword results for each query keyword:
the first KeyError propagates, aborting the whole query. -/
def map_search (f : String → Except PyError (Finset Int)) :
    List String → Except PyError (List (Finset Int))
  | [] => .ok []
  | k :: ks => do
    let s ← f k
    let rest ← map_search f ks
    return s :: rest

/-- The time-constraint application inside search_by_multiple_keywords:
when a window was resolved, the tier set is passed through
search_by_time (an unset operation would hit None.strip(), an
AttributeError). -/
def apply_time (T : IndexTable) (el : Option Int × Option Int)
    (operation : Option String) (fs : Finset Int) : Except PyError (Finset Int) :=
  if el.1.isSome then
    match operation with
    | none => .error .attrError
    | some op => search_by_time T (el.2.getD 0) (el.1.getD 0) op (some fs)
  else .ok fs

/-- Search.search_by_multiple_keywords: resolve the window once, sort the
query keywords by length, then emit four tiers — exact intersection,
fuzzy intersection, exact union, fuzzy union — each diffed against the
ids already placed and each time-filtered when a window exists. Tier
contents are appended in ascending id order (the deterministic rendering
of Python set iteration). -/
def search_by_multiple_keywords (T : IndexTable) (qs : List String)
    (dateStr timeStr : Option String) (operation : Option String)
    (today : Int × Int × Int) : Except PyError (List Int) := do
  let el := epoch_limits today dateStr timeStr
  let ks := sort_by_len qs
  let nfs ← map_search (fun k => search_by_keyword T k false) ks
  let i1 ← inter_list nfs
  let t1 ← apply_time T el operation i1
  let fzs := ks.map (fun k => fuzzy_kw_set T k)
  let i2 ← inter_list fzs
  let t2 ← apply_time T el operation (i2 \ t1)
  let u3 ← union_list nfs
  let t3 ← apply_time T el operation (u3 \ (t1 ∪ t2))
  let u4 ← union_list fzs
  let t4 ← apply_time T el operation (u4 \ (t1 ∪ t2 ∪ t3))
  return sort_ids t1 ++ sort_ids t2 ++ sort_ids t3 ++ sort_ids t4

/-- The id set the keyword index associates to a keyword (empty when the
keyword is not a key). -/
def kw_set (T : IndexTable) (k : String) : Finset Int :=
  (dictGet T.keywords k).getD ∅

/-- The keyword set of the record stored under an id (empty when no
record exists). -/
def file_keywords (T : IndexTable) (i : Int) : Finset String :=
  ((dictGet T.files i).map Metadata.keywords).getD ∅

/-- Invariant 2 of the spec: an id belongs to keyword_index[k] exactly
when k belongs to that record's keyword set; ids without a record appear
nowhere (no stale memberships). -/
def kw_consistent (T : IndexTable) : Prop :=
  ∀ k i, i ∈ kw_set T k ↔ k ∈ file_keywords T i

/-- Allocator invariant (invariant 3 of the spec): free ids have no
record, and every record id is at most lastid. -/
def alloc_ok (T : IndexTable) : Prop :=
  (∀ i ∈ T.state.free_slots, dictGet T.files i = none) ∧
  (∀ p ∈ T.files, p.1 ≤ T.state.lastid)

/-- Finite sufficient condition for kw_consistent, checkable by decide on
a concrete table. -/
theorem kw_consistent_of (T : IndexTable)
    (h1 : ∀ p ∈ T.keywords, ∀ i ∈ p.2, p.1 ∈ file_keywords T i)
    (h2 : ∀ q ∈ T.files, ∀ k ∈ q.2.keywords, q.1 ∈ kw_set T k) :
    kw_consistent T := by
  intro k i
  constructor
  · intro hm
    cases hg : dictGet T.keywords k with
    | none => rw [kw_set, hg] at hm; simp at hm
    | some s =>
      rw [kw_set, hg] at hm
      simp at hm
      exact h1 (k, s) (dictGet_mem _ _ _ hg) i hm
  · intro hf
    cases hg : dictGet T.files i with
    | none => rw [file_keywords, hg] at hf; simp at hf
    | some m =>
      rw [file_keywords, hg] at hf
      simp at hf
      exact h2 (i, m) (dictGet_mem _ _ _ hg) k hf

/-- The fresh id handed out by the allocator has no record, under the
allocator invariant. -/
theorem allocate_id_fresh (s : AllocState) (files : List (Int × Metadata))
    (h1 : ∀ i ∈ s.free_slots, dictGet files i = none)
    (h2 : ∀ p ∈ files, p.1 ≤ s.lastid) :
    dictGet files (allocate_id s).1 = none := by
  cases hf : s.free_slots with
  | nil =>
    have he : allocate_id s = get_nextid s := by unfold allocate_id; rw [hf]
    rw [he]
    cases hg : dictGet files (get_nextid s).1 with
    | none => rfl
    | some m =>
      have hmem := h2 _ (dictGet_mem _ _ _ hg)
      simp [get_nextid] at hmem
  | cons i rest =>
    have he : allocate_id s = (i, { s with free_slots := rest }) := by
      unfold allocate_id; rw [hf]
    rw [he]
    exact h1 i (by rw [hf]; exact List.mem_cons_self _ _)

/-- Effect on lookups of folding per-key dict updates over a
duplicate-free key list: a key in the list gets the transform of its
original value, every other key is untouched. -/
theorem dictGet_foldl_dictSet (l : List String) (hnd : l.Nodup)
    (f : Option (Finset Int) → Finset Int) (d : List (String × Finset Int)) (k : String) :
    dictGet (l.foldl (fun d2 kk => dictSet d2 kk (f (dictGet d2 kk))) d) k =
      if k ∈ l then some (f (dictGet d k)) else dictGet d k := by
  induction l generalizing d with
  | nil => simp
  | cons x xs ih =>
    have hx : x ∉ xs := (List.nodup_cons.mp hnd).1
    have hxs : xs.Nodup := (List.nodup_cons.mp hnd).2
    simp only [List.foldl_cons]
    rw [ih hxs]
    by_cases hk : k ∈ xs
    · have hkx : k ≠ x := fun h => hx (h ▸ hk)
      simp only [hk, if_true, List.mem_cons, hk, or_true, if_true]
      rw [dictGet_dictSet_ne _ _ _ _ (fun h => hkx h.symm)]
    · by_cases hke : k = x
      · subst hke
        simp only [hk, if_false, List.mem_cons, true_or, if_true]
        exact dictGet_dictSet_self _ _ _
      · simp only [hk, if_false, List.mem_cons, hke, false_or, if_neg hk]
        exact dictGet_dictSet_ne _ _ _ _ (fun h => hke h.symm)

/-- Specialization of dictGet_foldl_dictSet to the removal loop. -/
theorem dictGet_foldl_erase (l : List String) (hnd : l.Nodup) (idv : Int)
    (d : List (String × Finset Int)) (k : String) :
    dictGet (l.foldl (fun d2 kk => dictSet d2 kk (((dictGet d2 kk).getD ∅).erase idv)) d) k =
      if k ∈ l then some (((dictGet d k).getD ∅).erase idv) else dictGet d k :=
  dictGet_foldl_dictSet l hnd (fun o => (o.getD ∅).erase idv) d k

/-- Specialization of dictGet_foldl_dictSet to the addition loop. -/
theorem dictGet_foldl_insert (l : List String) (hnd : l.Nodup) (idv : Int)
    (d : List (String × Finset Int)) (k : String) :
    dictGet (l.foldl (fun d2 kk => dictSet d2 kk (insert idv ((dictGet d2 kk).getD ∅))) d) k =
      if k ∈ l then some (insert idv ((dictGet d k).getD ∅)) else dictGet d k :=
  dictGet_foldl_dictSet l hnd (fun o => insert idv (o.getD ∅)) d k

/-- Lookup characterization of the two keyword-index delta loops. -/
theorem dictGet_apply_keyword_delta (kw : List (String × Finset Int)) (idv : Int)
    (oldK newK : Finset String) (k : String) :
    dictGet (apply_keyword_delta kw idv oldK newK) k =
      if k ∈ oldK \ newK then some (((dictGet kw k).getD ∅).erase idv)
      else if k ∈ newK \ oldK then some (insert idv ((dictGet kw k).getD ∅))
      else dictGet kw k := by
  unfold apply_keyword_delta
  rw [dictGet_foldl_insert _ (sort_keys_nodup _) idv _ k,
      dictGet_foldl_erase _ (sort_keys_nodup _) idv _ k]
  by_cases h1 : k ∈ oldK \ newK
  · have h2 : k ∉ newK \ oldK := by
      simp only [Finset.mem_sdiff] at h1 ⊢
      tauto
    simp [mem_sort_keys, h1, h2]
  · by_cases h2 : k ∈ newK \ oldK
    · simp [mem_sort_keys, h1, h2]
    · simp [mem_sort_keys, h1, h2]

/-- Closed form of index_update when the record exists and carries a stat
identity (the only reachable case). -/
theorem index_update_eq (T : IndexTable) (v : FileView) (idv : Int) (oldK : Finset String)
    (st2 : AllocState) (filesBase : List (Int × Metadata)) (rec0 : Metadata) (stKey : UMeta)
    (hfb : dictGet filesBase idv = some rec0) (hum : rec0.u_meta = some stKey) :
    index_update T v idv oldK st2 filesBase =
      some
        { state := st2
          files := dictSet filesBase idv
            { rec0 with keywords := content_keywords v ∪ rec0.user_keywords }
          name := dictSet T.name v.filename (insert idv ((dictGet T.name v.filename).getD ∅))
          keywords := apply_keyword_delta T.keywords idv oldK
            (content_keywords v ∪ rec0.user_keywords)
          path := dictSet T.path v.filepath idv
          uid := dictSet T.uid stKey idv } := by
  unfold index_update
  rw [hfb]
  simp [hum]

/-- index_update succeeds in the reachable case and rewrites the record
under the updated id with the recomputed keyword set, leaving its other
fields (path, user keywords, stored identity) unchanged. -/
theorem index_update_files (T : IndexTable) (v : FileView) (idv : Int) (oldK : Finset String)
    (st2 : AllocState) (filesBase : List (Int × Metadata)) (rec0 : Metadata) (stKey : UMeta)
    (hfb : dictGet filesBase idv = some rec0) (hum : rec0.u_meta = some stKey) :
    ∃ T2, index_update T v idv oldK st2 filesBase = some T2 ∧
      dictGet T2.files idv =
        some { rec0 with keywords := content_keywords v ∪ rec0.user_keywords } :=
  ⟨_, index_update_eq T v idv oldK st2 filesBase rec0 stKey hfb hum,
    dictGet_dictSet_self _ _ _⟩

/-- Keyword-index consistency is restored by the update tail, provided
the updated id's previous memberships matched oldK and every other id was
already consistent. -/
theorem kw_consistent_after_update
    (T T2 : IndexTable) (v : FileView) (idv : Int) (oldK : Finset String)
    (st2 : AllocState) (filesBase : List (Int × Metadata))
    (h : index_update T v idv oldK st2 filesBase = some T2)
    (hother : ∀ i, i ≠ idv → dictGet filesBase i = dictGet T.files i)
    (hidv : ∀ k, idv ∈ kw_set T k ↔ k ∈ oldK)
    (hc : ∀ k i, i ≠ idv → (i ∈ kw_set T k ↔ k ∈ file_keywords T i)) :
    kw_consistent T2 := by
  cases hfb : dictGet filesBase idv with
  | none =>
    unfold index_update at h
    rw [hfb] at h
    exact absurd h (by simp)
  | some rec0 =>
    cases hum : rec0.u_meta with
    | none =>
      unfold index_update at h
      rw [hfb] at h
      simp [hum] at h
    | some stKey =>
      rw [index_update_eq T v idv oldK st2 filesBase rec0 stKey hfb hum] at h
      injection h with h2
      subst h2
      have hkwT2 : ∀ k, kw_set
          { state := st2
            files := dictSet filesBase idv
              { rec0 with keywords := content_keywords v ∪ rec0.user_keywords }
            name := dictSet T.name v.filename (insert idv ((dictGet T.name v.filename).getD ∅))
            keywords := apply_keyword_delta T.keywords idv oldK
              (content_keywords v ∪ rec0.user_keywords)
            path := dictSet T.path v.filepath idv
            uid := dictSet T.uid stKey idv } k =
          (if k ∈ oldK \ (content_keywords v ∪ rec0.user_keywords) then (kw_set T k).erase idv
           else if k ∈ (content_keywords v ∪ rec0.user_keywords) \ oldK then
             insert idv (kw_set T k)
           else kw_set T k) := by
        intro k
        rw [kw_set]
        simp only []
        rw [dictGet_apply_keyword_delta]
        split_ifs <;> simp [kw_set]
      intro k i
      rw [hkwT2 k]
      by_cases hieq : i = idv
      · subst hieq
        have hfk : file_keywords
            { state := st2
              files := dictSet filesBase i
                { rec0 with keywords := content_keywords v ∪ rec0.user_keywords }
              name := dictSet T.name v.filename (insert i ((dictGet T.name v.filename).getD ∅))
              keywords := apply_keyword_delta T.keywords i oldK
                (content_keywords v ∪ rec0.user_keywords)
              path := dictSet T.path v.filepath i
              uid := dictSet T.uid stKey i } i = content_keywords v ∪ rec0.user_keywords := by
          rw [file_keywords]
          simp only []
          rw [dictGet_dictSet_self]
          rfl
        rw [hfk]
        by_cases h1 : k ∈ oldK \ (content_keywords v ∪ rec0.user_keywords)
        · have hknot : k ∉ content_keywords v ∪ rec0.user_keywords :=
            (Finset.mem_sdiff.mp h1).2
          simp [h1, hknot]
        · by_cases h2 : k ∈ (content_keywords v ∪ rec0.user_keywords) \ oldK
          · have hkin : k ∈ content_keywords v ∪ rec0.user_keywords :=
              (Finset.mem_sdiff.mp h2).1
            simp [h1, h2, hkin]
          · rw [if_neg h1, if_neg h2, hidv k]
            simp only [Finset.mem_sdiff] at h1 h2
            tauto
      · have hfk : file_keywords
            { state := st2
              files := dictSet filesBase idv
                { rec0 with keywords := content_keywords v ∪ rec0.user_keywords }
              name := dictSet T.name v.filename (insert idv ((dictGet T.name v.filename).getD ∅))
              keywords := apply_keyword_delta T.keywords idv oldK
                (content_keywords v ∪ rec0.user_keywords)
              path := dictSet T.path v.filepath idv
              uid := dictSet T.uid stKey idv } i = file_keywords T i := by
          rw [file_keywords, file_keywords]
          simp only []
          rw [dictGet_dictSet_ne _ _ _ _ (fun hh => hieq hh.symm), hother i hieq]
        rw [hfk]
        have hcc := hc k i hieq
        by_cases h1 : k ∈ oldK \ (content_keywords v ∪ rec0.user_keywords)
        · rw [if_pos h1]
          rw [Finset.mem_erase]
          constructor
          · intro hh
            exact hcc.mp hh.2
          · intro hh
            exact ⟨hieq, hcc.mpr hh⟩
        · by_cases h2 : k ∈ (content_keywords v ∪ rec0.user_keywords) \ oldK
          · rw [if_neg h1, if_pos h2, Finset.mem_insert]
            constructor
            · intro hh
              rcases hh with hh | hh
              · exact absurd hh hieq
              · exact hcc.mp hh
            · intro hh
              exact Or.inr (hcc.mpr hh)
          · rw [if_neg h1, if_neg h2]
            exact hcc

/-- C1. Indexer.index_file keeps the keyword index consistent with the
file records: on any table satisfying the keyword-consistency and
allocator invariants, after a successful call an id is a member of
keyword_index[k] exactly when k is in that record's keyword set, with no
stale memberships. -/
theorem index_file_keyword_consistency
    (T T2 : IndexTable) (v : FileView)
    (hc : kw_consistent T) (ha : alloc_ok T)
    (h : index_file T v = some T2) :
    kw_consistent T2 := by
  unfold index_file at h
  split at h
  case h_1 idv hp =>
    split at h
    case h_1 hfil =>
      exact absurd h (by simp)
    case h_2 rec0 hfil =>
      split at h
      case h_1 hum =>
        exact absurd h (by simp)
      case h_2 st hum =>
        split at h
        case isTrue hfast =>
          injection h with h2
          subst h2
          exact hc
        case isFalse hfast =>
          apply kw_consistent_after_update T T2 v idv rec0.keywords T.state T.files h
          · intro i _
            rfl
          · intro k
            have hck := hc k idv
            rw [file_keywords, hfil] at hck
            simpa using hck
          · intro k i _
            exact hc k i
  case h_2 hp =>
    have hfresh : dictGet T.files (allocate_id T.state).1 = none :=
      allocate_id_fresh T.state T.files ha.1 ha.2
    apply kw_consistent_after_update T T2 v (allocate_id T.state).1 ∅ (allocate_id T.state).2 _ h
    · intro i hne
      exact dictGet_dictSet_ne _ _ _ _ (fun hh => hne hh.symm)
    · intro k
      have hck := hc k ((allocate_id T.state).1)
      rw [file_keywords, hfresh] at hck
      simp at hck
      simp [hck]
    · intro k i _
      exact hc k i

/-- Closed form of index_file on a tracked path. -/
theorem index_file_tracked_eq (T : IndexTable) (v : FileView) (idv : Int)
    (m : Metadata) (st : UMeta)
    (hp : dictGet T.path v.filepath = some idv)
    (hf : dictGet T.files idv = some m)
    (hu : m.u_meta = some st) :
    index_file T v =
      if v.curStat.ino = st.ino ∧ v.curStat.mtime = st.mtime then some T
      else index_update T v idv m.keywords T.state T.files := by
  unfold index_file
  split
  case h_1 idv2 hp2 =>
    rw [hp] at hp2
    injection hp2 with he
    subst he
    split
    case h_1 hfil =>
      rw [hf] at hfil
      exact absurd hfil (by simp)
    case h_2 rec0 hfil =>
      rw [hf] at hfil
      injection hfil with he2
      subst he2
      split
      case h_1 hum2 =>
        rw [hu] at hum2
        exact absurd hum2 (by simp)
      case h_2 st2 hum2 =>
        rw [hu] at hum2
        injection hum2 with he3
        subst he3
        rfl
  case h_2 hp2 =>
    rw [hp] at hp2
    exact absurd hp2 (by simp)

/-- Closed form of index_file on an untracked path. -/
theorem index_file_untracked_eq (T : IndexTable) (v : FileView)
    (hp : dictGet T.path v.filepath = none) :
    index_file T v =
      index_update T v (allocate_id T.state).1 ∅ (allocate_id T.state).2
        (dictSet T.files (allocate_id T.state).1
          { keywords := content_keywords v
            user_keywords := ∅
            path := v.filepath
            u_meta := some v.curStat }) := by
  unfold index_file
  split
  case h_1 idv2 hp2 =>
    rw [hp] at hp2
    exact absurd hp2 (by simp)
  case h_2 hp2 =>
    rfl

/-- C5 (amended). For a tracked path, index_file returns with the table
untouched when the stored and current inode number and modification time
agree — the device id is not part of the comparison, so a device-id-only
change also takes the fast path — and otherwise it re-indexes the file:
the record's keyword set is recomputed as the freshly extracted content
keywords joined with the stored user keywords, so an mtime-only change
(touch) does trigger re-indexing. -/
theorem index_file_change_detection
    (T : IndexTable) (v : FileView) (idv : Int) (m : Metadata) (st : UMeta)
    (hp : dictGet T.path v.filepath = some idv)
    (hf : dictGet T.files idv = some m)
    (hu : m.u_meta = some st) :
    (v.curStat.ino = st.ino ∧ v.curStat.mtime = st.mtime → index_file T v = some T) ∧
    (¬ (v.curStat.ino = st.ino ∧ v.curStat.mtime = st.mtime) →
      ∃ T2, index_file T v = some T2 ∧
        dictGet T2.files idv =
          some { m with keywords := content_keywords v ∪ m.user_keywords }) := by
  constructor
  · intro hfast
    rw [index_file_tracked_eq T v idv m st hp hf hu, if_pos hfast]
  · intro hfast
    rw [index_file_tracked_eq T v idv m st hp hf hu, if_neg hfast]
    exact index_update_files T v idv m.keywords T.state T.files m st hf hu

/-- C8. A file whose first 1024 bytes contain a byte outside the
textchars set is classified binary and its content-keyword set is empty
regardless of what the extractor returned: an untracked file gets a
record with an empty keyword set, and a tracked changed file keeps
exactly its stored user keywords. -/
theorem binary_file_empty_keywords (T : IndexTable) (v : FileView)
    (hb : (v.bytes.take 1024).any (fun b => !(is_text_byte b)) = true) :
    is_binary_file v.bytes = true ∧
    content_keywords v = ∅ ∧
    (dictGet T.path v.filepath = none →
      ∃ T2, index_file T v = some T2 ∧
        dictGet T2.files (allocate_id T.state).1 =
          some { keywords := ∅, user_keywords := ∅, path := v.filepath,
                 u_meta := some v.curStat }) ∧
    (∀ idv m st, dictGet T.path v.filepath = some idv →
      dictGet T.files idv = some m → m.u_meta = some st →
      ¬ (v.curStat.ino = st.ino ∧ v.curStat.mtime = st.mtime) →
      ∃ T2, index_file T v = some T2 ∧
        dictGet T2.files idv = some { m with keywords := m.user_keywords }) := by
  have hbin : is_binary_file v.bytes = true := hb
  have hck : content_keywords v = ∅ := by
    unfold content_keywords
    rw [hbin]
    simp
  refine ⟨hbin, hck, ?_, ?_⟩
  · intro hp
    rw [index_file_untracked_eq T v hp]
    rcases index_update_files T v (allocate_id T.state).1 ∅ (allocate_id T.state).2
      (dictSet T.files (allocate_id T.state).1
        { keywords := content_keywords v
          user_keywords := ∅
          path := v.filepath
          u_meta := some v.curStat })
      { keywords := content_keywords v
        user_keywords := ∅
        path := v.filepath
        u_meta := some v.curStat } v.curStat
      (dictGet_dictSet_self _ _ _) rfl with ⟨T2, he, hrec⟩
    refine ⟨T2, he, ?_⟩
    rw [hrec, hck]
    simp
  · intro idv m st hp hf hu hfast
    rw [index_file_tracked_eq T v idv m st hp hf hu, if_neg hfast]
    rcases index_update_files T v idv m.keywords T.state T.files m st hf hu
      with ⟨T2, he, hrec⟩
    refine ⟨T2, he, ?_⟩
    rw [hrec, hck]
    simp

/-- C7. Under the allocator invariant (free ids without records, record
ids at most lastid) and with duplicate-free free slots, allocation hands
out an id that no current record uses — ids in use stay unique — by
popping a free id (which leaves free_slots without it and lastid
untouched) when free_slots is non-empty, and by get_nextid (increment
lastid and return it) otherwise. -/
theorem next_id_allocation (T : IndexTable) (ha : alloc_ok T)
    (hnd : T.state.free_slots.Nodup) :
    dictGet T.files (allocate_id T.state).1 = none ∧
    (T.state.free_slots ≠ [] →
      (allocate_id T.state).1 ∈ T.state.free_slots ∧
      (allocate_id T.state).1 ∉ (allocate_id T.state).2.free_slots ∧
      (allocate_id T.state).2.lastid = T.state.lastid) ∧
    (T.state.free_slots = [] →
      (allocate_id T.state).1 = T.state.lastid + 1 ∧
      (allocate_id T.state).2.lastid = T.state.lastid + 1 ∧
      (allocate_id T.state).2.free_slots = []) := by
  refine ⟨allocate_id_fresh T.state T.files ha.1 ha.2, ?_, ?_⟩
  · intro hne
    cases hf : T.state.free_slots with
    | nil => exact absurd hf hne
    | cons i rest =>
      have he : allocate_id T.state = (i, { T.state with free_slots := rest }) := by
        unfold allocate_id
        rw [hf]
      rw [he]
      rw [hf] at hnd
      exact ⟨List.mem_cons_self _ _, (List.nodup_cons.mp hnd).1, rfl⟩
  · intro hf
    have he : allocate_id T.state = get_nextid T.state := by
      unfold allocate_id
      rw [hf]
    rw [he]
    refine ⟨rfl, rfl, ?_⟩
    simp [get_nextid, hf]

/-- Concrete table for the keyword-delta scenario: one tracked file with
keywords A and B. -/
def c1T : IndexTable :=
  { state := AllocState.mk [] 0
    files := [(0, Metadata.mk {("A"), ("B")} ∅ ("f") (some (UMeta.mk 1 5 10)))]
    name := [(("f"), {0})]
    keywords := [(("A"), {0}), (("B"), {0})]
    path := [(("f"), 0)]
    uid := [(UMeta.mk 1 5 10, 0)] }

/-- Re-index view for c1T: same inode, changed mtime, extractor now
yields B and C. -/
def c1V : FileView :=
  { filename := ("f"), filepath := ("f"), curStat := UMeta.mk 1 5 11
    bytes := [66], phrases := some [("B"), ("C")] }

/-- The table index_file produces from c1T and c1V. -/
def c1T2 : IndexTable :=
  { state := AllocState.mk [] 0
    files := [(0, Metadata.mk {("B"), ("C")} ∅ ("f") (some (UMeta.mk 1 5 10)))]
    name := [(("f"), {0})]
    keywords := [(("A"), ∅), (("B"), {0}), (("C"), {0})]
    path := [(("f"), 0)]
    uid := [(UMeta.mk 1 5 10, 0)] }

/-- Concrete table for the change-detection scenarios: one tracked file
with keyword old and stored identity (dev 1, ino 5, mtime 10). -/
def c5T : IndexTable :=
  { state := AllocState.mk [] 0
    files := [(0, Metadata.mk {("old")} ∅ ("f") (some (UMeta.mk 1 5 10)))]
    name := [(("f"), {0})]
    keywords := [(("old"), {0})]
    path := [(("f"), 0)]
    uid := [(UMeta.mk 1 5 10, 0)] }

/-- View whose identity differs from the stored one only in the device
id, with content now yielding keyword new. -/
def c5V : FileView :=
  { filename := ("f"), filepath := ("f"), curStat := UMeta.mk 2 5 10
    bytes := [65], phrases := some [("new")] }

/-- View whose identity differs from the stored one only in the mtime. -/
def c5V2 : FileView :=
  { filename := ("f"), filepath := ("f"), curStat := UMeta.mk 1 5 11
    bytes := [65], phrases := some [("new")] }

/-- Untracked view whose first byte is 0x00 while the extractor still
reports a phrase. -/
def c8V : FileView :=
  { filename := ("g"), filepath := ("g"), curStat := UMeta.mk 1 6 10
    bytes := [0], phrases := some [("stuff")] }

/-- Allocator scenario table: free slot 5 available, lastid 5. -/
def c7T : IndexTable :=
  { state := AllocState.mk [5] 5
    files := [(0, Metadata.mk ∅ ∅ ("f") (some (UMeta.mk 1 2 3)))]
    name := [(("f"), {0})]
    keywords := []
    path := [(("f"), 0)]
    uid := [(UMeta.mk 1 2 3, 0)] }

/-- Time-search scenario table: one tracked file with mtime 100. -/
def c4T : IndexTable :=
  { state := AllocState.mk [] 0
    files := [(0, Metadata.mk {("a")} ∅ ("f") (some (UMeta.mk 1 7 100)))]
    name := [(("f"), {0})]
    keywords := [(("a"), {0})]
    path := [(("f"), 0)]
    uid := [(UMeta.mk 1 7 100, 0)] }

/-- Name-search scenario table: one file named bar, empty keyword index. -/
def c10T : IndexTable :=
  { state := AllocState.mk [] 1
    files := [(1, Metadata.mk ∅ ∅ ("bar") (some (UMeta.mk 1 9 5)))]
    name := [(("bar"), {1})]
    keywords := []
    path := [(("bar"), 1)]
    uid := [(UMeta.mk 1 9 5, 1)] }

/-- Witness for C1 at the spec's own scenario: keywords change from
{A, B} to {B, C}; afterwards the table is still keyword-consistent, id 0
left keyword_index[A] and sits in keyword_index[B] and keyword_index[C]. -/
theorem index_file_keyword_consistency_witness :
    index_file c1T c1V = some c1T2 ∧
    kw_consistent c1T2 ∧
    (0 : Int) ∉ kw_set c1T2 ("A") ∧
    (0 : Int) ∈ kw_set c1T2 ("B") ∧
    (0 : Int) ∈ kw_set c1T2 ("C") := by
  have hc : kw_consistent c1T := kw_consistent_of c1T (by decide) (by decide)
  have ha : alloc_ok c1T := ⟨by decide, by decide⟩
  exact ⟨by decide, index_file_keyword_consistency c1T c1T2 c1V hc ha (by decide),
    by decide, by decide, by decide⟩

/-- C5 counterexample to the claim as stated: the stored identity is
(dev 1, ino 5, mtime 10), the current identity (dev 2, ino 5, mtime 10)
differs in the device id alone, and re-indexing would change the stored
keyword from old to new — yet index_file returns the table unchanged, so
the file is not re-indexed. -/
theorem index_file_device_ignored_cex :
    index_file c5T c5V = some c5T ∧
    c5V.curStat.dev = 2 ∧ c5V.curStat.ino = 5 ∧ c5V.curStat.mtime = 10 ∧
    dictGet c5T.files 0 =
      some (Metadata.mk {("old")} ∅ ("f") (some (UMeta.mk 1 5 10))) ∧
    content_keywords c5V ∪ (∅ : Finset String) ≠ {("old")} := by decide

/-- Witness for C5 (amended): the device-only change takes the no-op fast
path, while an mtime-only change re-indexes and recomputes the keyword
set. -/
theorem index_file_change_detection_witness :
    index_file c5T c5V = some c5T ∧
    (∃ T2, index_file c5T c5V2 = some T2 ∧
      dictGet T2.files 0 =
        some { (Metadata.mk {("old")} ∅ ("f") (some (UMeta.mk 1 5 10))) with
               keywords := content_keywords c5V2 ∪
                 (Metadata.mk {("old")} ∅ ("f") (some (UMeta.mk 1 5 10))).user_keywords }) := by
  constructor
  · exact (index_file_change_detection c5T c5V 0
      (Metadata.mk {("old")} ∅ ("f") (some (UMeta.mk 1 5 10))) (UMeta.mk 1 5 10)
      (by decide) (by decide) (by decide)).1 (by decide)
  · exact (index_file_change_detection c5T c5V2 0
      (Metadata.mk {("old")} ∅ ("f") (some (UMeta.mk 1 5 10))) (UMeta.mk 1 5 10)
      (by decide) (by decide) (by decide)).2 (by decide)

/-- Witness for C8: a 0x00 first byte makes the file binary; indexing it
as a new file stores an empty keyword set although the extractor
returned a phrase. -/
theorem binary_file_empty_keywords_witness :
    is_binary_file c8V.bytes = true ∧
    content_keywords c8V = ∅ ∧
    (∃ T2, index_file c5T c8V = some T2 ∧
      dictGet T2.files (allocate_id c5T.state).1 =
        some { keywords := ∅, user_keywords := ∅, path := c8V.filepath,
               u_meta := some c8V.curStat }) := by
  have h := binary_file_empty_keywords c5T c8V (by decide)
  exact ⟨h.1, h.2.1, h.2.2.1 (by decide)⟩

/-- Witness for C7: with free slot 5 available it is reused and removed
from free_slots; with no free slot the allocator increments lastid. -/
theorem next_id_allocation_witness :
    alloc_ok c7T ∧ c7T.state.free_slots.Nodup ∧
    (dictGet c7T.files (allocate_id c7T.state).1 = none ∧
      (c7T.state.free_slots ≠ [] →
        (allocate_id c7T.state).1 ∈ c7T.state.free_slots ∧
        (allocate_id c7T.state).1 ∉ (allocate_id c7T.state).2.free_slots ∧
        (allocate_id c7T.state).2.lastid = c7T.state.lastid) ∧
      (c7T.state.free_slots = [] →
        (allocate_id c7T.state).1 = c7T.state.lastid + 1 ∧
        (allocate_id c7T.state).2.lastid = c7T.state.lastid + 1 ∧
        (allocate_id c7T.state).2.free_slots = [])) ∧
    allocate_id c7T.state = (5, AllocState.mk [] 5) ∧
    allocate_id (AllocState.mk [] 7) = (8, AllocState.mk [] 8) := by
  have ha : alloc_ok c7T := ⟨by decide, by decide⟩
  exact ⟨ha, by decide, next_id_allocation c7T ha (by decide), by decide, by decide⟩

/-- C3 (amended). Exact keyword search returns exactly
keyword_index[keyword] when the keyword is a key, and raises KeyError —
rather than returning the empty set — when it is absent. -/
theorem keyword_exact_lookup (T : IndexTable) (k : String) :
    (∀ s, dictGet T.keywords k = some s → search_by_keyword T k false = .ok s) ∧
    (dictGet T.keywords k = none → search_by_keyword T k false = .error .keyError) := by
  constructor
  · intro s hs
    unfold search_by_keyword
    simp [hs]
  · intro hs
    unfold search_by_keyword
    simp [hs]

/-- C3 counterexample to the claim as stated: foo is not a key of the
keyword index and the exact search raises KeyError instead of returning
the empty set. -/
theorem keyword_exact_missing_cex :
    dictGet c10T.keywords ("foo") = none ∧
    search_by_keyword c10T ("foo") false = .error .keyError ∧
    search_by_keyword c10T ("foo") false ≠ .ok (∅ : Finset Int) := by decide

/-- Witness for C3 (amended) on a concrete table. -/
theorem keyword_exact_lookup_witness :
    search_by_keyword c1T ("A") false = .ok ({0} : Finset Int) ∧
    search_by_keyword c1T ("zzz") false = .error .keyError :=
  ⟨(keyword_exact_lookup c1T ("A")).1 {0} (by decide),
   (keyword_exact_lookup c1T ("zzz")).2 (by decide)⟩

/-- C4 (code bug). search_by_time on a table with one file of mtime 100:
with candidates {0} and operation before/high 200 the file matches, but
the code executes set.update(uid[identity]) with a plain int and raises
TypeError instead of returning {0}; with candidates unset it iterates
identity keys yet indexes the id-keyed files dict and raises KeyError;
only a matchless window returns (the empty set). -/
theorem search_by_time_crashes :
    dictGet c4T.files 0 =
      some (Metadata.mk {("a")} ∅ ("f") (some (UMeta.mk 1 7 100))) ∧
    (UMeta.mk 1 7 100).mtime ≤ 200 ∧
    search_by_time c4T 200 0 ("before") (some {0}) = .error .typeError ∧
    search_by_time c4T 200 0 ("after") (some {0}) = .error .typeError ∧
    search_by_time c4T 200 50 ("on") (some {0}) = .error .typeError ∧
    search_by_time c4T 200 0 ("before") none = .error .keyError ∧
    search_by_time c4T 300 250 ("on") (some {0}) = .ok ∅ ∧
    search_by_time c4T 200 0 ("bogus") (some {0}) = .error .valueError := by
  decide

/-- C6 (code bug). epoch_limits("202403") resolves low to
2024-03-01T00:00:00 but high to 2024-03-31T00:00:59: the missing-day
branch passes the zero-initialized hour and minutes variables instead of
23 and 59, so the month window does not extend to 23:59:59 as specified. -/
theorem epoch_limits_march_window (today : Int × Int × Int) :
    epoch_limits today (some ("202403")) none =
      (some (to_epoch 2024 3 1 0 0 0), some (to_epoch 2024 3 31 0 0 59)) ∧
    to_epoch 2024 3 31 0 0 59 ≠ to_epoch 2024 3 31 23 59 59 := by
  constructor
  · rfl
  · decide

/-- C9. The last day of the month used in window resolution is computed
correctly for every representable year and every month, including
February of leap years; in particular epoch_limits("202402") resolves a
high bound on day 29 because 2024 is a leap year. -/
theorem last_day_of_month_correct (today : Int × Int × Int) (y m : Int)
    (hy1 : 1 ≤ y) (hy2 : y ≤ 9998) (hm1 : 1 ≤ m) (hm2 : m ≤ 12) :
    get_last_day_of_month y m = some (ref_days_in_month y m.toNat) ∧
    epoch_limits today (some ("202402")) none =
      (some (to_epoch 2024 2 1 0 0 0), some (to_epoch 2024 2 29 0 0 59)) ∧
    is_leap 2024 = true ∧ ref_days_in_month 2024 2 = 29 := by
  refine ⟨?_, rfl, by decide, by decide⟩
  unfold get_last_day_of_month
  interval_cases m <;>
    (norm_num
     refine ⟨by omega, ?_⟩
     simp [date_pred, ref_days_in_month])

/-- The one-pass accumulation of fuzzy name search leaves the
accumulator untouched when no tracked basename passes the Jaro test or
the substring test. -/
theorem name_fold_id (nm : String) (l : List (String × Finset Int))
    (h : ∀ p ∈ l, ¬ (fuzzy_threshold ≤ jaro p.1 nm) ∧ contains_sub p.1 nm = false)
    (init : Finset Int × Finset Int) :
    l.foldl
      (fun (pr : Finset Int × Finset Int) p =>
        (if fuzzy_threshold ≤ jaro p.1 nm then pr.1 ∪ p.2 else pr.1,
         if contains_sub p.1 nm then pr.2 ∪ p.2 else pr.2)) init = init := by
  induction l generalizing init with
  | nil => rfl
  | cons p ps ih =>
    have hp := h p (List.mem_cons_self _ _)
    simp only [List.foldl_cons]
    rw [if_neg hp.1, if_neg (by simp [hp.2])]
    exact ih (fun q hq => h q (List.mem_cons_of_mem _ hq)) init

/-- C10. For a name that is not a key of the name index, exact name
search signals a missing-key error (KeyError) rather than returning an
empty collection, while fuzzy mode returns an empty sequence when no
tracked basename matches. -/
theorem name_search_missing_key (T : IndexTable) (nm : String)
    (h : dictGet T.name nm = none) :
    search_by_name T nm false = .error .keyError ∧
    ((∀ p ∈ T.name, ¬ (fuzzy_threshold ≤ jaro p.1 nm) ∧ contains_sub p.1 nm = false) →
      search_by_name T nm true = .ok (.inr [])) := by
  constructor
  · unfold search_by_name
    simp [h]
  · intro hall
    unfold search_by_name
    simp only [Bool.true_eq_false, if_false, if_neg]
    rw [name_fold_id nm T.name hall (∅, ∅)]
    rfl

/-- Witness for C10 on a concrete table: zzz is untracked, exact search
errors, fuzzy search returns the empty sequence. -/
theorem name_search_missing_key_witness :
    dictGet c10T.name ("zzz") = none ∧
    search_by_name c10T ("zzz") false = .error .keyError ∧
    search_by_name c10T ("zzz") true = .ok (.inr []) := by
  have h := name_search_missing_key c10T ("zzz") (by decide)
  exact ⟨by decide, h.1, h.2 (by decide)⟩

/-- Witness for C9 at the leap-year instance of the spec. -/
theorem last_day_of_month_correct_witness :
    ((1 : Int) ≤ 2024 ∧ (2024 : Int) ≤ 9998 ∧ (1 : Int) ≤ 2 ∧ (2 : Int) ≤ 12) ∧
    get_last_day_of_month 2024 2 = some (ref_days_in_month 2024 (2 : Int).toNat) ∧
    get_last_day_of_month 2024 2 = some 29 := by
  have h := last_day_of_month_correct (2025, 1, 1) 2024 2 (by decide) (by decide)
    (by decide) (by decide)
  exact ⟨⟨by decide, by decide, by decide, by decide⟩, h.1, by decide⟩

/-- With neither a date nor a time string no window is resolved. -/
theorem epoch_limits_no_constraint (today : Int × Int × Int) :
    epoch_limits today none none = (none, none) := rfl

/-- Without a window the time filter passes a tier through unchanged. -/
theorem apply_time_none (T : IndexTable) (operation : Option String) (fs : Finset Int) :
    apply_time T (none, none) operation fs = .ok fs := rfl

/-- Bind on a successful Except value. -/
theorem except_bind_ok (a : α) (f : α → Except PyError β) :
    ((Except.ok a : Except PyError α) >>= f) = f a := rfl

/-- When every query keyword is a key of the keyword index, the exact
search loop collects exactly the indexed id sets. -/
theorem map_search_ok (T : IndexTable) (ks : List String)
    (hall : ∀ k ∈ ks, (dictGet T.keywords k).isSome) :
    map_search (fun k => search_by_keyword T k false) ks =
      .ok (ks.map (fun k => kw_set T k)) := by
  induction ks with
  | nil => rfl
  | cons k rest ih =>
    have hk := hall k (List.mem_cons_self _ _)
    cases hg : dictGet T.keywords k with
    | none => rw [hg] at hk; simp at hk
    | some s =>
      have h1 : search_by_keyword T k false = .ok s := by
        unfold search_by_keyword
        simp [hg]
      have h2 : kw_set T k = s := by
        rw [kw_set, hg]
        rfl
      simp only [map_search, h1, except_bind_ok,
        ih (fun q hq => hall q (List.mem_cons_of_mem _ hq)), List.map_cons, h2]
      rfl

/-- Membership in a left fold of intersections. -/
theorem mem_foldl_inter (rest : List (Finset Int)) (s : Finset Int) (i : Int) :
    i ∈ rest.foldl (fun a b => a ∩ b) s ↔ i ∈ s ∧ ∀ x ∈ rest, i ∈ x := by
  induction rest generalizing s with
  | nil => simp
  | cons r rs ih =>
    simp only [List.foldl_cons]
    rw [ih]
    simp only [Finset.mem_inter, List.mem_cons]
    constructor
    · rintro ⟨⟨h1, h2⟩, h3⟩
      exact ⟨h1, fun x hx => hx.elim (fun he => he ▸ h2) (h3 x)⟩
    · rintro ⟨h1, h2⟩
      exact ⟨⟨h1, h2 r (Or.inl rfl)⟩, fun x hx => h2 x (Or.inr hx)⟩

/-- Membership in a left fold of unions. -/
theorem mem_foldl_union (rest : List (Finset Int)) (s : Finset Int) (i : Int) :
    i ∈ rest.foldl (fun a b => a ∪ b) s ↔ i ∈ s ∨ ∃ x ∈ rest, i ∈ x := by
  induction rest generalizing s with
  | nil => simp
  | cons r rs ih =>
    simp only [List.foldl_cons]
    rw [ih]
    simp only [Finset.mem_union, List.mem_cons]
    constructor
    · rintro ((h1 | h1) | ⟨x, hx, h2⟩)
      · exact Or.inl h1
      · exact Or.inr ⟨r, Or.inl rfl, h1⟩
      · exact Or.inr ⟨x, Or.inr hx, h2⟩
    · rintro (h1 | ⟨x, hx, h2⟩)
      · exact Or.inl (Or.inl h1)
      · rcases hx with he | hx
        · exact Or.inl (Or.inr (he ▸ h2))
        · exact Or.inr ⟨x, hx, h2⟩

/-- Sorting by length permutes, so membership is unchanged. -/
theorem mem_sort_by_len (l : List String) (k : String) :
    k ∈ sort_by_len l ↔ k ∈ l :=
  (list_sort_by_perm len_lt l).mem_iff

/-- Sorting by length sends only the empty query to the empty list. -/
theorem sort_by_len_eq_nil_iff (l : List String) : sort_by_len l = [] ↔ l = [] := by
  constructor
  · intro h
    have hlen := (list_sort_by_perm len_lt l).length_eq
    rw [show list_sort_by len_lt l = sort_by_len l from rfl, h] at hlen
    exact List.length_eq_zero.mp hlen.symm
  · intro h
    rw [h]
    rfl

/-- The four tier lists are duplicate-free and pairwise disjoint by
construction, so their concatenation has no duplicates. -/
theorem tiers_nodup (A B C D : Finset Int) :
    (sort_ids A ++ sort_ids (B \ A) ++ sort_ids (C \ (A ∪ B \ A)) ++
      sort_ids (D \ (A ∪ B \ A ∪ C \ (A ∪ B \ A)))).Nodup := by
  have d12 : (sort_ids A).Disjoint (sort_ids (B \ A)) := by
    intro a ha hb
    rw [mem_sort_ids] at ha hb
    exact (Finset.mem_sdiff.mp hb).2 ha
  have d13 : (sort_ids A).Disjoint (sort_ids (C \ (A ∪ B \ A))) := by
    intro a ha hb
    rw [mem_sort_ids] at ha hb
    exact (Finset.mem_sdiff.mp hb).2 (Finset.mem_union_left _ ha)
  have d23 : (sort_ids (B \ A)).Disjoint (sort_ids (C \ (A ∪ B \ A))) := by
    intro a ha hb
    rw [mem_sort_ids] at ha hb
    exact (Finset.mem_sdiff.mp hb).2 (Finset.mem_union_right _ ha)
  have d14 : (sort_ids A).Disjoint
      (sort_ids (D \ (A ∪ B \ A ∪ C \ (A ∪ B \ A)))) := by
    intro a ha hb
    rw [mem_sort_ids] at ha hb
    exact (Finset.mem_sdiff.mp hb).2
      (Finset.mem_union_left _ (Finset.mem_union_left _ ha))
  have d24 : (sort_ids (B \ A)).Disjoint
      (sort_ids (D \ (A ∪ B \ A ∪ C \ (A ∪ B \ A)))) := by
    intro a ha hb
    rw [mem_sort_ids] at ha hb
    exact (Finset.mem_sdiff.mp hb).2
      (Finset.mem_union_left _ (Finset.mem_union_right _ ha))
  have d34 : (sort_ids (C \ (A ∪ B \ A))).Disjoint
      (sort_ids (D \ (A ∪ B \ A ∪ C \ (A ∪ B \ A)))) := by
    intro a ha hb
    rw [mem_sort_ids] at ha hb
    exact (Finset.mem_sdiff.mp hb).2 (Finset.mem_union_right _ ha)
  have h12 : (sort_ids A ++ sort_ids (B \ A)).Nodup :=
    (sort_ids_nodup A).append (sort_ids_nodup (B \ A)) d12
  have h123 : (sort_ids A ++ sort_ids (B \ A) ++ sort_ids (C \ (A ∪ B \ A))).Nodup :=
    h12.append (sort_ids_nodup _) (by rw [List.disjoint_append_left]; exact ⟨d13, d23⟩)
  exact h123.append (sort_ids_nodup _)
    (by rw [List.disjoint_append_left, List.disjoint_append_left]; exact ⟨⟨d14, d24⟩, d34⟩)

/-- Concrete table for the §8 scenario of the spec: file 0 carries both
report and q3, files 1 and 2 carry only report, file 3 carries only q3. -/
def scT : IndexTable :=
  { state := AllocState.mk [] 3
    files :=
      [ (0, Metadata.mk {("report"), ("q3")} ∅ ("a") (some (UMeta.mk 1 1 1)))
      , (1, Metadata.mk {("report")} ∅ ("b") (some (UMeta.mk 1 2 1)))
      , (2, Metadata.mk {("report")} ∅ ("c") (some (UMeta.mk 1 3 1)))
      , (3, Metadata.mk {("q3")} ∅ ("d") (some (UMeta.mk 1 4 1))) ]
    name := [(("a"), {0}), (("b"), {1}), (("c"), {2}), (("d"), {3})]
    keywords := [(("report"), {0, 1, 2}), (("q3"), {0, 3})]
    path := [(("a"), 0), (("b"), 1), (("c"), 2), (("d"), 3)]
    uid := [(UMeta.mk 1 1 1, 0), (UMeta.mk 1 2 1, 1), (UMeta.mk 1 3 1, 2),
      (UMeta.mk 1 4 1, 3)] }

/-- C2 (amended). For every non-empty query list all of whose keywords
are keys of the keyword index, and with no time constraint,
search_by_multiple_keywords succeeds and returns the concatenation of
four tiers — exact-keyword intersection, fuzzy-keyword intersection,
exact-keyword union, fuzzy-keyword union — each tier excluding the ids
already placed by higher tiers and listed in ascending id order, so each
id appears exactly once; in the §8 scenario the exact intersection
(tier 1) is {0}, of size one, and the output is [0, 1, 2, 3], of size
four with no duplicates. -/
theorem multi_keyword_tiers (T : IndexTable) (qs : List String)
    (operation : Option String) (today : Int × Int × Int)
    (hne : qs ≠ [])
    (hall : ∀ k ∈ qs, (dictGet T.keywords k).isSome) :
    (∃ S1 S2 S3 S4 : Finset Int,
      search_by_multiple_keywords T qs none none operation today =
        .ok (sort_ids S1 ++ sort_ids S2 ++ sort_ids S3 ++ sort_ids S4) ∧
      (∀ i, i ∈ S1 ↔ ∀ k ∈ qs, i ∈ kw_set T k) ∧
      (∀ i, i ∈ S2 ↔ ((∀ k ∈ qs, i ∈ fuzzy_kw_set T k) ∧ i ∉ S1)) ∧
      (∀ i, i ∈ S3 ↔ ((∃ k ∈ qs, i ∈ kw_set T k) ∧ i ∉ S1 ∧ i ∉ S2)) ∧
      (∀ i, i ∈ S4 ↔ ((∃ k ∈ qs, i ∈ fuzzy_kw_set T k) ∧ i ∉ S1 ∧ i ∉ S2 ∧ i ∉ S3)) ∧
      (sort_ids S1 ++ sort_ids S2 ++ sort_ids S3 ++ sort_ids S4).Nodup) ∧
    search_by_multiple_keywords scT [("report"), ("q3")] none none none (2025, 1, 1) =
      .ok [0, 1, 2, 3] ∧
    kw_set scT ("report") ∩ kw_set scT ("q3") = {0} := by
  refine ⟨?_, by decide, by decide⟩
  obtain ⟨k0, krest, hks⟩ : ∃ k0 krest, sort_by_len qs = k0 :: krest := by
    cases hsq : sort_by_len qs with
    | nil => exact absurd ((sort_by_len_eq_nil_iff qs).mp hsq) hne
    | cons a b => exact ⟨a, b, rfl⟩
  have hmem : ∀ k : String, (k ∈ qs ↔ k ∈ k0 :: krest) := by
    intro k
    rw [← hks]
    exact (mem_sort_by_len qs k).symm
  have hallks : ∀ k ∈ sort_by_len qs, (dictGet T.keywords k).isSome := by
    intro k hk
    exact hall k ((mem_sort_by_len qs k).mp hk)
  have hInter : ∀ (E : String → Finset Int) (i : Int),
      (i ∈ (krest.map E).foldl (fun a b => a ∩ b) (E k0) ↔ ∀ k ∈ qs, i ∈ E k) := by
    intro E i
    rw [mem_foldl_inter]
    constructor
    · rintro ⟨h0, hrest⟩ k hk
      rcases List.mem_cons.mp ((hmem k).mp hk) with heq | h2
      · exact heq ▸ h0
      · exact hrest (E k) (List.mem_map_of_mem E h2)
    · intro hAll
      refine ⟨hAll k0 ((hmem k0).mpr (List.mem_cons_self _ _)), ?_⟩
      intro x hx
      rcases List.mem_map.mp hx with ⟨k, hk2, rfl⟩
      exact hAll k ((hmem k).mpr (List.mem_cons_of_mem _ hk2))
  have hUnion : ∀ (E : String → Finset Int) (i : Int),
      (i ∈ (krest.map E).foldl (fun a b => a ∪ b) (E k0) ↔ ∃ k ∈ qs, i ∈ E k) := by
    intro E i
    rw [mem_foldl_union]
    constructor
    · rintro (h0 | ⟨x, hx, h2⟩)
      · exact ⟨k0, (hmem k0).mpr (List.mem_cons_self _ _), h0⟩
      · rcases List.mem_map.mp hx with ⟨k, hk2, rfl⟩
        exact ⟨k, (hmem k).mpr (List.mem_cons_of_mem _ hk2), h2⟩
    · rintro ⟨k, hk, h2⟩
      rcases List.mem_cons.mp ((hmem k).mp hk) with heq | hmm
      · exact Or.inl (heq ▸ h2)
      · exact Or.inr ⟨E k, List.mem_map_of_mem E hmm, h2⟩
  have hrun : search_by_multiple_keywords T qs none none operation today =
      .ok (sort_ids ((krest.map (fun k => kw_set T k)).foldl (fun a b => a ∩ b) (kw_set T k0)) ++
        sort_ids (((krest.map (fun k => fuzzy_kw_set T k)).foldl (fun a b => a ∩ b) (fuzzy_kw_set T k0)) \
          ((krest.map (fun k => kw_set T k)).foldl (fun a b => a ∩ b) (kw_set T k0))) ++
        sort_ids (((krest.map (fun k => kw_set T k)).foldl (fun a b => a ∪ b) (kw_set T k0)) \
          (((krest.map (fun k => kw_set T k)).foldl (fun a b => a ∩ b) (kw_set T k0)) ∪
            (((krest.map (fun k => fuzzy_kw_set T k)).foldl (fun a b => a ∩ b) (fuzzy_kw_set T k0)) \
              ((krest.map (fun k => kw_set T k)).foldl (fun a b => a ∩ b) (kw_set T k0))))) ++
        sort_ids (((krest.map (fun k => fuzzy_kw_set T k)).foldl (fun a b => a ∪ b) (fuzzy_kw_set T k0)) \
          ((((krest.map (fun k => kw_set T k)).foldl (fun a b => a ∩ b) (kw_set T k0)) ∪
            (((krest.map (fun k => fuzzy_kw_set T k)).foldl (fun a b => a ∩ b) (fuzzy_kw_set T k0)) \
              ((krest.map (fun k => kw_set T k)).foldl (fun a b => a ∩ b) (kw_set T k0)))) ∪
            (((krest.map (fun k => kw_set T k)).foldl (fun a b => a ∪ b) (kw_set T k0)) \
              (((krest.map (fun k => kw_set T k)).foldl (fun a b => a ∩ b) (kw_set T k0)) ∪
                (((krest.map (fun k => fuzzy_kw_set T k)).foldl (fun a b => a ∩ b) (fuzzy_kw_set T k0)) \
                  ((krest.map (fun k => kw_set T k)).foldl (fun a b => a ∩ b) (kw_set T k0)))))))) := by
    simp only [search_by_multiple_keywords]
    rw [epoch_limits_no_constraint, map_search_ok T (sort_by_len qs) hallks, hks]
    simp only [except_bind_ok, List.map_cons, inter_list, union_list, apply_time_none]
    rfl
  refine ⟨_, _, _, _, hrun, fun i => hInter (fun k => kw_set T k) i, ?m2, ?m3, ?m4,
    tiers_nodup _ _ _ _⟩
  case m2 =>
    intro i
    rw [Finset.mem_sdiff, hInter (fun k => fuzzy_kw_set T k) i]
  case m3 =>
    intro i
    rw [Finset.mem_sdiff, hUnion (fun k => kw_set T k) i]
    constructor
    · rintro ⟨hu, hn⟩
      exact ⟨hu, fun h => hn (Finset.mem_union_left _ h),
        fun h => hn (Finset.mem_union_right _ h)⟩
    · rintro ⟨hu, h1, h2⟩
      refine ⟨hu, fun hc => ?_⟩
      rcases Finset.mem_union.mp hc with hc | hc
      · exact h1 hc
      · exact h2 hc
  case m4 =>
    intro i
    rw [Finset.mem_sdiff, hUnion (fun k => fuzzy_kw_set T k) i]
    constructor
    · rintro ⟨hu, hn⟩
      exact ⟨hu, fun h => hn (Finset.mem_union_left _ (Finset.mem_union_left _ h)),
        fun h => hn (Finset.mem_union_left _ (Finset.mem_union_right _ h)),
        fun h => hn (Finset.mem_union_right _ h)⟩
    · rintro ⟨hu, h1, h2, h3⟩
      refine ⟨hu, fun hc => ?_⟩
      rcases Finset.mem_union.mp hc with hc | hc
      · rcases Finset.mem_union.mp hc with hc | hc
        · exact h1 hc
        · exact h2 hc
      · exact h3 hc

/-- C2 counterexample to the claim as stated: for the non-empty query
list [nosuch] with no time constraint, on a table that does not index
that keyword, search_by_multiple_keywords raises KeyError (from the
tier-1 exact lookup) instead of returning the concatenation of the four
tiers. -/
theorem multi_keyword_missing_key_cex :
    ([("nosuch")] : List String) ≠ [] ∧
    dictGet c10T.keywords ("nosuch") = none ∧
    search_by_multiple_keywords c10T [("nosuch")] none none none (2025, 1, 1) =
      .error .keyError := by
  decide

/-- Witness for C2 (amended) at the §8 scenario. -/
theorem multi_keyword_tiers_witness :
    ((∃ S1 S2 S3 S4 : Finset Int,
      search_by_multiple_keywords scT [("report"), ("q3")] none none none (2025, 1, 1) =
        .ok (sort_ids S1 ++ sort_ids S2 ++ sort_ids S3 ++ sort_ids S4) ∧
      (∀ i, i ∈ S1 ↔ ∀ k ∈ [("report"), ("q3")], i ∈ kw_set scT k) ∧
      (∀ i, i ∈ S2 ↔ ((∀ k ∈ [("report"), ("q3")], i ∈ fuzzy_kw_set scT k) ∧ i ∉ S1)) ∧
      (∀ i, i ∈ S3 ↔ ((∃ k ∈ [("report"), ("q3")], i ∈ kw_set scT k) ∧ i ∉ S1 ∧ i ∉ S2)) ∧
      (∀ i, i ∈ S4 ↔ ((∃ k ∈ [("report"), ("q3")], i ∈ fuzzy_kw_set scT k) ∧
        i ∉ S1 ∧ i ∉ S2 ∧ i ∉ S3)) ∧
      (sort_ids S1 ++ sort_ids S2 ++ sort_ids S3 ++ sort_ids S4).Nodup) ∧
    search_by_multiple_keywords scT [("report"), ("q3")] none none none (2025, 1, 1) =
      .ok [0, 1, 2, 3] ∧
    kw_set scT ("report") ∩ kw_set scT ("q3") = {0}) ∧
    ([0, 1, 2, 3] : List Int).length = 4 ∧ ([0, 1, 2, 3] : List Int).Nodup ∧
    ({0} : Finset Int).card = 1 :=
  ⟨multi_keyword_tiers scT [("report"), ("q3")] none (2025, 1, 1) (by decide) (by decide),
   by decide, by decide, by decide⟩

end Peregrine
